import Mathlib

/-!
Shallow embedding of the task dispatch core of `rmf_ros2`:
the `Dispatcher::Implementation` operations from
`src/rmf_task_ros2/src/rmf_task_ros2/Dispatcher.cpp` and the
`FleetUpdateHandle::Implementation::dispatch_request_cb` handler from the
fleet adapter translation unit in the same repository.

Machine maps (`std::unordered_map`) are modelled as association lists,
sets (`std::set`, `std::unordered_set`) as duplicate-free string lists,
ROS times as the integer nanosecond counts that `rmf_traffic_ros2::convert`
compares, and the external collaborators (auctioneer, action client, task
planner) as explicit inputs and outputs of each operation.  Undefined
behaviour reachable in the source (an invalid iterator dereference, a `pop`
on an empty `std::queue`) is modelled by an `Option` result: `none` means
the operation's behaviour is undefined there.
-/

namespace RmfTaskRos2

/-- Task lifecycle states, `TaskStatus::State` in the source. -/
inductive TaskState
  | pending
  | queued
  | executing
  | completed
  | failed
  | canceled
deriving DecidableEq, Repr

/-- Source `TaskStatus::is_terminated()`: Completed, Failed and Canceled are terminal. -/
def TaskState.isTerminal : TaskState → Bool
  | .completed => true
  | .failed => true
  | .canceled => true
  | _ => false

/-- Submission payload.  The dispatcher reads only `task_type.type`, modelled
as the raw numeric tag. -/
structure TaskDescription where
  task_type : Nat
deriving DecidableEq, Repr

/-- Source `TaskProfile`: task id, submission time and description, created at
submission.  `submission_time` is the nanosecond count used by the
`rmf_traffic_ros2::convert` comparison in the eviction scan. -/
structure TaskProfile where
  task_id : String
  submission_time : Int
  description : TaskDescription
deriving DecidableEq, Repr

/-- Source `TaskStatus`: profile plus the fleet the task is attributed to and its
lifecycle state. -/
structure TaskStatus where
  task_profile : TaskProfile
  fleet_name : String
  state : TaskState
deriving DecidableEq, Repr

/-- Source `bidding::BidNotice`, reduced to the field the dispatcher reads back
(`task_profile`); the auction time window is handed to the auctioneer and
never re-read. -/
structure BidNotice where
  task_profile : TaskProfile
deriving DecidableEq, Repr

/-- Association-list lookup, modelling `map.find(k)`. -/
def alistFind? {α : Type} : List (String × α) → String → Option α
  | [], _ => none
  | e :: rest, k => if e.1 = k then some e.2 else alistFind? rest k

/-- Assignment `map[k] = v`: overwrite the entry when the key is present, append a fresh
entry otherwise. -/
def alistInsert {α : Type} (l : List (String × α)) (k : String) (v : α) :
    List (String × α) :=
  if (alistFind? l k).isSome then
    l.map (fun e => if e.1 = k then (k, v) else e)
  else l ++ [(k, v)]

/-- Erasure `map.erase(k)`. -/
def alistErase {α : Type} (l : List (String × α)) (k : String) :
    List (String × α) :=
  l.filter (fun e => !(e.1 == k))

/-- Insertion `set.insert(k)` on a set of strings: no-op when already present. -/
def setInsert (l : List String) (k : String) : List String :=
  if k ∈ l then l else l ++ [k]

/-- The dispatcher's `DispatchTasks` map
(`std::unordered_map<TaskID, TaskStatusPtr>`). -/
abbrev DispatchTasks := List (String × TaskStatus)

/-- The mutable state of `Dispatcher::Implementation`.  `bidding_time_window`
and the ROS plumbing are omitted: no modelled operation reads them back. -/
structure DispatcherState where
  active_dispatch_tasks : DispatchTasks
  terminal_dispatch_tasks : DispatchTasks
  user_submitted_tasks : List String
  queue_bidding_tasks : List BidNotice
  task_counter : Nat
  terminated_tasks_max_size : Nat
deriving DecidableEq, Repr

/-- The `task_type_name` table of `Dispatcher::Implementation`. -/
def task_type_name : Nat → Option String
  | 0 => some "Station"
  | 1 => some "Loop"
  | 2 => some "Delivery"
  | 3 => some "ChargeBattery"
  | 4 => some "Clean"
  | 5 => some "Patrol"
  | _ => none

/-- Outcome of `Dispatcher::Implementation::submit_task`: the returned
optional id, the new dispatcher state, the `start_bidding` call issued to the
auctioneer (if any), and the statuses handed to `on_change_fn`. -/
structure SubmitResult where
  returned_id : Option String
  state : DispatcherState
  bid_started : Option BidNotice
  notifications : List TaskStatus
deriving DecidableEq, Repr

/-- Source `Dispatcher::Implementation::submit_task`.  Here `now` is `node->now()`. -/
def submit_task (s : DispatcherState) (now : Int) (description : TaskDescription) :
    SubmitResult :=
  match task_type_name description.task_type with
  | none => ⟨none, s, none, []⟩
  | some name =>
    let id := name ++ Nat.repr s.task_counter
    let profile : TaskProfile := ⟨id, now, description⟩
    let status : TaskStatus := ⟨profile, "", .pending⟩
    let queue := s.queue_bidding_tasks ++ [⟨profile⟩]
    let s' : DispatcherState :=
      { s with
        active_dispatch_tasks := alistInsert s.active_dispatch_tasks id status
        user_submitted_tasks := setInsert s.user_submitted_tasks id
        queue_bidding_tasks := queue
        task_counter := s.task_counter + 1 }
    ⟨some id, s', if queue.length = 1 then queue.head? else none, [status]⟩

/-- Response of the `submit_task` ROS service. -/
structure SubmitTaskResponse where
  success : Bool
  message : String
  task_id : String
deriving DecidableEq, Repr

/-- The `submit_task_srv` lambda in the `Dispatcher::Implementation`
constructor: translate the optional id from `submit_task` into a service
response. -/
def submit_task_srv (s : DispatcherState) (now : Int)
    (description : TaskDescription) : SubmitTaskResponse × SubmitResult :=
  let r := submit_task s now description
  match r.returned_id with
  | none => (⟨false, "Task type is invalid", ""⟩, r)
  | some id => (⟨true, "", id⟩, r)

/-- The submission time of a table entry, as compared by the eviction scan. -/
def submissionTime (e : String × TaskStatus) : Int :=
  e.2.task_profile.submission_time

/-- The `for` loop of the eviction scan in `terminate_task`, with iterator
positions as list indices: `it` is the loop iterator, `rm` the candidate
(`rm_task`), and `fuel` the number of remaining iterations (the loop runs
until `it` reaches `end()`, so it is started with `fuel = l.length`).  Each
iteration dereferences both positions; dereferencing an invalid position is
undefined behaviour, modelled as `none`. -/
def evictLoop (l : DispatchTasks) : Nat → Nat → Nat → Option Nat
  | 0, _, rm => some rm
  | fuel + 1, it, rm =>
    match l[it]?, l[rm]? with
    | some a, some b =>
      if submissionTime a < submissionTime b then evictLoop l fuel (it + 1) it
      else evictLoop l fuel (it + 1) rm
    | _, _ => none

/-- The eviction scan of `terminate_task`: `rm_task` is initialised to
`begin()` and immediately advanced (`auto it = rm_task++`), so the loop starts
with `it` at position 0 and `rm_task` at position 1.  On an empty table even
the increment past `begin() = end()` is invalid. -/
def evictIndex (l : DispatchTasks) : Option Nat :=
  if l.length = 0 then none else evictLoop l l.length 0 1

/-- Source `Dispatcher::Implementation::terminate_task`.  The source asserts
`terminate_status->is_terminated()` on entry; the capacity check fires when
the terminal table has reached `terminated_tasks_max_size`, evicting the
entry found by the scan before the fresh copy of the status is inserted. -/
def terminate_task (s : DispatcherState) (terminate_status : TaskStatus) :
    Option DispatcherState :=
  let afterEvict : Option DispatchTasks :=
    if s.terminal_dispatch_tasks.length ≥ s.terminated_tasks_max_size then
      match evictIndex s.terminal_dispatch_tasks with
      | none => none
      | some i => some (s.terminal_dispatch_tasks.eraseIdx i)
    else some s.terminal_dispatch_tasks
  match afterEvict with
  | none => none
  | some terminal =>
    let id := terminate_status.task_profile.task_id
    some { s with
      terminal_dispatch_tasks := alistInsert terminal id terminate_status
      user_submitted_tasks := s.user_submitted_tasks.filter (fun u => !(u == id))
      active_dispatch_tasks := alistErase s.active_dispatch_tasks id }

/-- The self-generated-task sweep shared by `cancel_task` and
`receive_bidding_winner_cb`: walk the active table, and for every entry whose
fleet matches and whose id is not user-submitted, mark it Canceled and
terminate it.  The erase-while-iterating idiom of the source removes exactly
the entry under the iterator, so iterating over a snapshot of the table while
threading the state is equivalent. -/
def sweepLoop (fleet : String) :
    List (String × TaskStatus) → DispatcherState → Option DispatcherState
  | [], s => some s
  | (id, st) :: rest, s =>
    if fleet = st.fleet_name ∧ id ∉ s.user_submitted_tasks then
      match terminate_task s { st with state := .canceled } with
      | none => none
      | some s' => sweepLoop fleet rest s'
    else sweepLoop fleet rest s

/-- Outcome of `cancel_task`: the returned boolean, the new state, and the
statuses handed to `on_change_fn`. -/
structure CancelResult where
  ack : Bool
  state : DispatcherState
  notifications : List TaskStatus
deriving DecidableEq, Repr

/-- Source `Dispatcher::Implementation::cancel_task`.  Here `fleet_ack` is the boolean the
action client returns for the forwarded cancel, an external input. -/
def cancel_task (s : DispatcherState) (task_id : String) (fleet_ack : Bool) :
    Option CancelResult :=
  match alistFind? s.active_dispatch_tasks task_id with
  | none => some ⟨false, s, []⟩
  | some cancel_task_status =>
    if cancel_task_status.state = TaskState.pending then
      match (terminate_task s
          ({ cancel_task_status with state := TaskState.canceled })) with
      | none => none
      | some s' =>
        some ⟨true, s',
          [{ cancel_task_status with state := TaskState.canceled }]⟩
    else if task_id ∉ s.user_submitted_tasks then some ⟨false, s, []⟩
    else if cancel_task_status.state ≠ TaskState.queued then some ⟨false, s, []⟩
    else
      match sweepLoop cancel_task_status.fleet_name s.active_dispatch_tasks s with
      | none => none
      | some s' => some ⟨fleet_ack, s', []⟩

/-- Outcome of `receive_bidding_winner_cb`: the new state, the
`start_bidding` call issued (if any), the `add_task` handed to the action
client (winning fleet plus the status as updated), and the statuses handed to
`on_change_fn`. -/
structure WinnerCbResult where
  state : DispatcherState
  bid_started : Option BidNotice
  added_task : Option (String × TaskStatus)
  notifications : List TaskStatus
deriving DecidableEq, Repr

/-- Source `Dispatcher::Implementation::receive_bidding_winner_cb`.  Here `winner` is the
optional winning submission, reduced to the one field the dispatcher reads
(`fleet_name`).  In the no-submission branch the source pops
`queue_bidding_tasks` unconditionally; a pop on an empty `std::queue` is
undefined, hence `none`. -/
def receive_bidding_winner_cb (s : DispatcherState) (task_id : String)
    (winner : Option String) : Option WinnerCbResult :=
  match alistFind? s.active_dispatch_tasks task_id with
  | none => some ⟨s, none, none, []⟩
  | some pending_task_status =>
    match winner with
    | none =>
      match (terminate_task s
          ({ pending_task_status with state := TaskState.failed })) with
      | none => none
      | some s1 =>
        match s1.queue_bidding_tasks with
        | [] => none
        | _ :: rest =>
          some ⟨{ s1 with queue_bidding_tasks := rest }, rest.head?, none,
            [{ pending_task_status with state := TaskState.failed }]⟩
    | some fleet =>
      match (sweepLoop fleet
          (alistInsert s.active_dispatch_tasks task_id
            ({ pending_task_status with fleet_name := fleet }))
          ({ s with active_dispatch_tasks :=
            (alistInsert s.active_dispatch_tasks task_id
              ({ pending_task_status with fleet_name := fleet })) })) with
      | none => none
      | some s2 =>
        some ⟨s2, none,
          some (fleet, { pending_task_status with fleet_name := fleet }), []⟩

/-- Outcome of `task_status_cb`: the new state, the `start_bidding` call
issued (if any), and the statuses handed to `on_change_fn`. -/
structure StatusCbResult where
  state : DispatcherState
  bid_started : Option BidNotice
  notifications : List TaskStatus
deriving DecidableEq, Repr

/-- Source `Dispatcher::Implementation::task_status_cb`: admit a status for an
unknown id into the active table as-is (stray-task admission; only the active
table is consulted), then pop the bidding queue opportunistically when the
reported id matches the queue head. -/
def task_status_cb (s : DispatcherState) (status : TaskStatus) : StatusCbResult :=
  let active1 :=
    if (alistFind? s.active_dispatch_tasks status.task_profile.task_id).isSome
    then s.active_dispatch_tasks
    else alistInsert s.active_dispatch_tasks status.task_profile.task_id status
  match s.queue_bidding_tasks with
  | [] => ⟨{ s with active_dispatch_tasks := active1 }, none, [status]⟩
  | front :: rest =>
    if front.task_profile.task_id = status.task_profile.task_id then
      ⟨{ s with active_dispatch_tasks := active1, queue_bidding_tasks := rest },
        rest.head?, [status]⟩
    else ⟨{ s with active_dispatch_tasks := active1 }, none, [status]⟩

/-- No task id occurs in both dispatcher tables. -/
def tablesDisjoint (s : DispatcherState) : Bool :=
  s.active_dispatch_tasks.all
    (fun e => (alistFind? s.terminal_dispatch_tasks e.1).isNone)

/-! Fleet adapter side: `FleetUpdateHandle::Implementation::dispatch_request_cb`. -/

/-- Constant `rmf_task_msgs::msg::DispatchRequest::ADD`. -/
def methodADD : Nat := 1

/-- Constant `rmf_task_msgs::msg::DispatchRequest::CANCEL`. -/
def methodCANCEL : Nat := 2

/-- One robot's `TaskManager`, reduced to the field `dispatch_request_cb`
reads: its executed-task report. -/
structure TaskManagerModel where
  executed_tasks : List String
deriving DecidableEq, Repr

/-- A task-planner assignment matrix: one queue per robot, each queue entry
reduced to the id of the request it carries (the only field the modelled
handler inspects). -/
abbrev Assignments := List (List String)

/-- The `FleetUpdateHandle::Implementation` fields read and written by
`dispatch_request_cb`.  `current_assignment_cost` is a `double` recomputed by
the external planner and never branched on; it is left out of the model. -/
structure FleetState where
  name : String
  bid_notice_assignments : List (String × Assignments)
  generated_requests : List String
  assigned_requests : List String
  cancelled_task_ids : List String
  task_managers : List TaskManagerModel
deriving DecidableEq, Repr

/-- A message on the dispatch-ack topic: the echoed request (task id and
method) plus the success flag. -/
structure DispatchAck where
  task_id : String
  method : Nat
  success : Bool
deriving DecidableEq, Repr

/-- Externally visible actions of `dispatch_request_cb`, in program order. -/
inductive FleetEvent
  | publishAck (ack : DispatchAck)
  | setQueue (robot_index : Nat) (queue : List String)
  | warnInvalidMethod
deriving DecidableEq, Repr

/-- The union of every `TaskManager`'s executed-task report, as collected by
both the CANCEL branch and `is_valid_assignments`. -/
def executedTasksUnion (f : FleetState) : List String :=
  f.task_managers.foldr (fun m acc => m.executed_tasks ++ acc) []

/-- Source `FleetUpdateHandle::Implementation::is_valid_assignments`: true iff no
assignment refers to an already-executed task. -/
def is_valid_assignments (f : FleetState) (assignments : Assignments) : Bool :=
  assignments.all (fun agent =>
    agent.all (fun rid => !((executedTasksUnion f).contains rid)))

/-- The `set_queue` loop: one call per `TaskManager`, indexing the assignment
matrix by the manager's position.  In every reachable call the matrix width
equals the manager count, so the default for an out-of-range row is inert. -/
def setQueueEvents (f : FleetState) (assignments : Assignments) : List FleetEvent :=
  (List.range f.task_managers.length).map
    (fun i => FleetEvent.setQueue i ((assignments[i]?).getD []))

/-- Result of `allocate_tasks`, an external input: the task planner is outside
the modelled core. -/
abbrev AllocateResult := Option Assignments

/-- Source `FleetUpdateHandle::Implementation::dispatch_request_cb`.  Here `replan_result`
is the outcome `allocate_tasks` would produce if the handler calls it.
Returns the new fleet state and the externally visible events in order. -/
def dispatch_request_cb (f : FleetState) (replan_result : AllocateResult)
    (msg_fleet_name : String) (id : String) (method : Nat) :
    FleetState × List FleetEvent :=
  if msg_fleet_name ≠ f.name then (f, [])
  else
    let nack : DispatchAck := ⟨id, method, false⟩
    if method = methodADD then
      match alistFind? f.bid_notice_assignments id with
      | none => (f, [.publishAck nack])
      | some assignments =>
        if assignments.length ≠ f.task_managers.length then (f, [.publishAck nack])
        else if id ∉ f.generated_requests then (f, [.publishAck nack])
        else
          let valid := is_valid_assignments f assignments
          let chosen : AllocateResult :=
            if valid then some assignments else replan_result
          match chosen with
          | none => (f, [.publishAck nack])
          | some asg =>
            let f' := { f with
              bid_notice_assignments :=
                if valid then f.bid_notice_assignments
                else alistInsert f.bid_notice_assignments id asg
              assigned_requests := setInsert f.assigned_requests id }
            (f', setQueueEvents f asg ++ [.publishAck ⟨id, method, true⟩])
    else if method = methodCANCEL then
      if id ∈ f.cancelled_task_ids then (f, [.publishAck ⟨id, method, true⟩])
      else if id ∉ f.assigned_requests then (f, [.publishAck nack])
      else if id ∈ executedTasksUnion f then (f, [.publishAck nack])
      else
        match replan_result with
        | none => (f, [.publishAck nack])
        | some asg =>
          let f' := { f with cancelled_task_ids := setInsert f.cancelled_task_ids id }
          (f', setQueueEvents f asg ++ [.publishAck ⟨id, method, true⟩])
    else (f, [.warnInvalidMethod])

/-- Count the dispatch-ack publications among a handler's events. -/
def countAcks (events : List FleetEvent) : Nat :=
  events.countP (fun e => match e with
    | .publishAck _ => true
    | _ => false)

/-! Observables and helper definitions used by the statements below. -/

/-- The submission time stored at position `i` of a table (0 when out of
range); positions reachable in the proofs are always in range. -/
def timeAt (l : DispatchTasks) (i : Nat) : Int :=
  ((l[i]?).map submissionTime).getD 0

/-- The entries of an active-table snapshot that the self-generated-task sweep
terminates: same fleet and not user-submitted. -/
def sweptEntries (fleet : String) (user : List String)
    (entries : List (String × TaskStatus)) : List (String × TaskStatus) :=
  entries.filter (fun e => decide (fleet = e.2.fleet_name ∧ e.1 ∉ user))

/-- Decimal digit list of a natural number, most significant first: a
structurally recursive reading of the core `Nat.toDigitsCore` printer that
`std::to_string` is modelled by. -/
def decDigits (n : Nat) : List Char :=
  if h : n / 10 = 0 then [Nat.digitChar (n % 10)]
  else decDigits (n / 10) ++ [Nat.digitChar (n % 10)]
termination_by n
decreasing_by
  exact Nat.div_lt_self (Nat.pos_of_ne_zero (fun hn => h (by simp [hn]))) (by omega)

/-- Numeric value of a decimal digit character. -/
def digitVal (c : Char) : Nat := c.toNat - Char.toNat '0'

/-- Value of a most-significant-first decimal digit list. -/
def denote (l : List Char) : Nat := l.foldl (fun a c => 10 * a + digitVal c) 0

/-- The decimal digit characters. -/
def digitChars : List Char :=
  ['0', '1', '2', '3', '4', '5', '6', '7', '8', '9']

/-- The six values of the `task_type_name` table. -/
def typeNames : List String :=
  ["Station", "Loop", "Delivery", "ChargeBattery", "Clean", "Patrol"]

/-! Concrete fixtures for the counterexamples and witnesses. -/

/-- An empty dispatcher state with the default capacity of 100. -/
def emptyDispatcher : DispatcherState := ⟨[], [], [], [], 0, 100⟩

/-- A stray status report carrying the id "Loop0". -/
def c1stray : TaskStatus := ⟨⟨"Loop0", 0, ⟨1⟩⟩, "fleetA", .executing⟩

/-- The dispatcher state reached in the C1 counterexample after submitting
"Loop0" and failing its auction: "Loop0" sits in the terminal table. -/
def c1afterFail : DispatcherState :=
  ((receive_bidding_winner_cb (submit_task emptyDispatcher 0 ⟨1⟩).state
      "Loop0" none).map WinnerCbResult.state).getD emptyDispatcher

/-- Profile of the first task in the C2 counterexample. -/
def c2p0 : TaskProfile := ⟨"Loop0", 0, ⟨1⟩⟩

/-- Profile of the second, still-queued task in the C2 counterexample. -/
def c2p1 : TaskProfile := ⟨"Loop1", 1, ⟨1⟩⟩

/-- Dispatcher state with "Loop0" pending at the head of a two-element
bidding queue. -/
def c2state : DispatcherState :=
  ⟨[("Loop0", ⟨c2p0, "", .pending⟩)], [], ["Loop0"], [⟨c2p0⟩, ⟨c2p1⟩], 2, 100⟩

/-- Terminal-table fixture task "A" with submission time 1. -/
def c4stA : TaskStatus := ⟨⟨"A", 1, ⟨1⟩⟩, "", .completed⟩

/-- Terminal-table fixture task "B" with submission time 2. -/
def c4stB : TaskStatus := ⟨⟨"B", 2, ⟨1⟩⟩, "", .completed⟩

/-- Terminal-table fixture task "C" with submission time 3. -/
def c4stC : TaskStatus := ⟨⟨"C", 3, ⟨1⟩⟩, "", .completed⟩

/-- Terminal-table fixture task "D" with submission time 4. -/
def c4stD : TaskStatus := ⟨⟨"D", 4, ⟨1⟩⟩, "", .completed⟩

/-- Dispatcher state whose terminal table holds "B" and "C" at the capacity
of 2, so every further termination evicts. -/
def c4state : DispatcherState := ⟨[], [("B", c4stB), ("C", c4stC)], [], [], 0, 2⟩

/-- Dispatcher state with a single terminal entry and capacity 1, the C10
configuration. -/
def c10state : DispatcherState := ⟨[], [("B", c4stB)], [], [], 0, 1⟩

/-- Fleet fixture with one robot and no recorded requests. -/
def c6fleet : FleetState := ⟨"fleetA", [], [], [], [], [⟨[]⟩]⟩

/-- Fleet fixture in which task "T" is assigned and already cancelled. -/
def c9fleet : FleetState :=
  ⟨"fleetA", [("T", [["T"]])], ["T"], ["T"], ["T"], [⟨[]⟩]⟩

/-- Dispatcher state holding the queued user-submitted task "Loop0" on
fleetA together with a self-generated charging task of the same fleet and a
self-generated task of another fleet. -/
def c5state : DispatcherState :=
  ⟨[("Loop0", ⟨⟨"Loop0", 0, ⟨1⟩⟩, "fleetA", .queued⟩),
    ("ChargeBattery7", ⟨⟨"ChargeBattery7", 5, ⟨3⟩⟩, "fleetA", .executing⟩),
    ("ChargeBattery8", ⟨⟨"ChargeBattery8", 6, ⟨3⟩⟩, "fleetB", .executing⟩)],
   [], ["Loop0"], [], 0, 100⟩

/-- Dispatcher state after the C2 witness's failed-auction terminate. -/
def c2s1 : DispatcherState :=
  (terminate_task c2state ⟨c2p0, "", .failed⟩).getD emptyDispatcher

/-- Result of delivering a winning submission for "Loop0" in `c2state`. -/
def c2winResult : WinnerCbResult :=
  (receive_bidding_winner_cb c2state "Loop0" (some "fleetA")).getD
    ⟨emptyDispatcher, none, none, []⟩

/-- Dispatcher state after the C4 witness's terminate of "A" at capacity. -/
def c4res : DispatcherState :=
  (terminate_task c4state c4stA).getD emptyDispatcher

/-- Status of the pending task used by the C3 witness. -/
def c3pending : TaskStatus := ⟨⟨"Loop0", 0, ⟨1⟩⟩, "", .pending⟩

/-- Dispatcher state holding only the pending user-submitted task "Loop0". -/
def c3state : DispatcherState :=
  ⟨[("Loop0", c3pending)], [], ["Loop0"], [⟨⟨"Loop0", 0, ⟨1⟩⟩⟩], 1, 100⟩

/-! Association-list lemmas. -/

theorem alistFind?_eq_none {α : Type} {l : List (String × α)} {k : String} :
    alistFind? l k = none ↔ ∀ e ∈ l, e.1 ≠ k := by
  induction l with
  | nil => simp [alistFind?]
  | cons e rest ih =>
    by_cases h : e.1 = k <;> simp [alistFind?, h, ih]

theorem alistFind?_isSome {α : Type} {l : List (String × α)} {k : String} :
    (alistFind? l k).isSome = true ↔ k ∈ l.map Prod.fst := by
  induction l with
  | nil => simp [alistFind?]
  | cons e rest ih =>
    by_cases h : e.1 = k
    · simp [alistFind?, h]
    · simp only [alistFind?, h, if_false, List.map_cons, List.mem_cons, ih]
      constructor
      · intro hm
        exact Or.inr hm
      · intro hm
        rcases hm with hm | hm
        · exact absurd hm.symm h
        · exact hm

theorem alistFind?_mem {α : Type} {l : List (String × α)} {k : String} {v : α}
    (h : alistFind? l k = some v) : (k, v) ∈ l := by
  induction l with
  | nil => simp [alistFind?] at h
  | cons e rest ih =>
    by_cases he : e.1 = k
    · simp only [alistFind?, he, if_true, Option.some.injEq] at h
      have : (k, v) = e := by
        obtain ⟨a, b⟩ := e
        simp only [Prod.mk.injEq]
        exact ⟨he.symm, h.symm⟩
      rw [this]
      exact List.mem_cons_self e rest
    · simp only [alistFind?, he, if_false] at h
      exact List.mem_cons_of_mem _ (ih h)

theorem alistFind?_overwrite_self {α : Type} (l : List (String × α))
    (k : String) (v : α) :
    alistFind? (l.map (fun e => if e.1 = k then (k, v) else e)) k =
      (alistFind? l k).map (fun _ => v) := by
  induction l with
  | nil => simp [alistFind?]
  | cons e rest ih =>
    by_cases he : e.1 = k
    · simp [alistFind?, he]
    · simp [alistFind?, he, ih]

theorem alistFind?_overwrite_ne {α : Type} (l : List (String × α))
    (k k' : String) (v : α) (h : k' ≠ k) :
    alistFind? (l.map (fun e => if e.1 = k then (k, v) else e)) k' =
      alistFind? l k' := by
  induction l with
  | nil => simp [alistFind?]
  | cons e rest ih =>
    by_cases hek : e.1 = k
    · have h1 : ¬ (k = k') := fun hh => h hh.symm
      have h2 : ¬ (e.1 = k') := by rw [hek]; exact fun hh => h hh.symm
      simp [alistFind?, hek, h1, h2, ih]
    · by_cases he : e.1 = k'
      · simp [alistFind?, hek, he, h]
      · simp [alistFind?, hek, he, ih]

theorem alistFind?_append_last_self {α : Type} (l : List (String × α))
    (k : String) (v : α) (h : alistFind? l k = none) :
    alistFind? (l ++ [(k, v)]) k = some v := by
  induction l with
  | nil => simp [alistFind?]
  | cons e rest ih =>
    by_cases he : e.1 = k
    · simp [alistFind?, he] at h
    · simp only [alistFind?, he, if_false] at h
      simpa [alistFind?, he] using ih h

theorem alistFind?_append_last_ne {α : Type} (l : List (String × α))
    (k k' : String) (v : α) (h : k' ≠ k) :
    alistFind? (l ++ [(k, v)]) k' = alistFind? l k' := by
  induction l with
  | nil => simp [alistFind?, Ne.symm h]
  | cons e rest ih =>
    by_cases he : e.1 = k'
    · simp [alistFind?, he]
    · simpa [alistFind?, he] using ih

theorem alistFind?_insert_self {α : Type} (l : List (String × α)) (k : String)
    (v : α) : alistFind? (alistInsert l k v) k = some v := by
  unfold alistInsert
  by_cases h : (alistFind? l k).isSome
  · obtain ⟨w, hw⟩ := Option.isSome_iff_exists.mp h
    simp [h, alistFind?_overwrite_self, hw]
  · simp only [h, if_false]
    exact alistFind?_append_last_self l k v (Option.not_isSome_iff_eq_none.mp h)

theorem alistFind?_insert_ne {α : Type} (l : List (String × α)) (k k' : String)
    (v : α) (h : k' ≠ k) :
    alistFind? (alistInsert l k v) k' = alistFind? l k' := by
  unfold alistInsert
  by_cases hs : (alistFind? l k).isSome
  · simp [hs, alistFind?_overwrite_ne l k k' v h]
  · simp [hs, alistFind?_append_last_ne l k k' v h]

theorem alistFind?_erase_self {α : Type} (l : List (String × α)) (k : String) :
    alistFind? (alistErase l k) k = none := by
  rw [alistFind?_eq_none]
  intro e he
  unfold alistErase at he
  have := List.of_mem_filter he
  simpa using this

theorem alistFind?_erase_ne {α : Type} (l : List (String × α)) (k k' : String)
    (h : k' ≠ k) : alistFind? (alistErase l k) k' = alistFind? l k' := by
  unfold alistErase
  induction l with
  | nil => simp [alistFind?]
  | cons e rest ih =>
    rw [List.filter_cons]
    by_cases hek : (e.1 == k) = true
    · have he : ¬ e.1 = k' := by
        have h1 : e.1 = k := by simpa using hek
        rw [h1]
        exact Ne.symm h
      simp [hek, alistFind?, he, ih]
    · by_cases he : e.1 = k'
      · simp [hek, alistFind?, he, h]
      · simp [hek, alistFind?, he, ih]

theorem mem_keys_alistInsert {α : Type} {l : List (String × α)} {k k' : String}
    {v : α} : k' ∈ (alistInsert l k v).map Prod.fst ↔
      k' ∈ l.map Prod.fst ∨ k' = k := by
  constructor
  · intro h
    by_cases he : k' = k
    · exact Or.inr he
    · have := alistFind?_isSome.mpr h
      rw [alistFind?_insert_ne l k k' v he] at this
      exact Or.inl (alistFind?_isSome.mp this)
  · intro h
    rcases h with h | h
    · by_cases he : k' = k
      · subst he
        exact alistFind?_isSome.mp (by rw [alistFind?_insert_self]; rfl)
      · exact alistFind?_isSome.mp
          (by rw [alistFind?_insert_ne l k k' v he]; exact alistFind?_isSome.mpr h)
    · subst h
      exact alistFind?_isSome.mp (by rw [alistFind?_insert_self]; rfl)

theorem length_alistInsert {α : Type} (l : List (String × α)) (k : String)
    (v : α) : (alistInsert l k v).length ≤ l.length + 1 := by
  unfold alistInsert
  by_cases h : (alistFind? l k).isSome <;> simp [h]

theorem mem_of_mem_eraseIdx {α : Type} {l : List α} {i : Nat} {a : α}
    (h : a ∈ l.eraseIdx i) : a ∈ l := by
  induction l generalizing i with
  | nil => simp [List.eraseIdx] at h
  | cons e rest ih =>
    match i with
    | 0 => exact List.mem_cons_of_mem _ (by simpa [List.eraseIdx] using h)
    | i + 1 =>
      simp only [List.eraseIdx] at h
      rcases List.mem_cons.mp h with h | h
      · exact List.mem_cons.mpr (Or.inl h)
      · exact List.mem_cons_of_mem _ (ih h)

theorem tablesDisjoint_iff {s : DispatcherState} :
    tablesDisjoint s = true ↔
      ∀ e ∈ s.active_dispatch_tasks,
        alistFind? s.terminal_dispatch_tasks e.1 = none := by
  unfold tablesDisjoint
  rw [List.all_eq_true]
  constructor
  · intro h e he
    exact Option.isNone_iff_eq_none.mp (h e he)
  · intro h e he
    exact Option.isNone_iff_eq_none.mpr (h e he)

/-! Lemmas about `terminate_task` and the eviction scan. -/

theorem timeAt_eq {l : DispatchTasks} {i : Nat} (h : i < l.length) :
    timeAt l i = submissionTime l[i] := by
  unfold timeAt
  rw [List.getElem?_eq_getElem h]
  rfl

theorem terminate_task_some {s : DispatcherState} {st : TaskStatus}
    {s' : DispatcherState} (h : terminate_task s st = some s') :
    ∃ terminal0,
      ((s.terminal_dispatch_tasks.length < s.terminated_tasks_max_size ∧
          terminal0 = s.terminal_dispatch_tasks) ∨
        (s.terminated_tasks_max_size ≤ s.terminal_dispatch_tasks.length ∧
          ∃ i, evictIndex s.terminal_dispatch_tasks = some i ∧
            terminal0 = s.terminal_dispatch_tasks.eraseIdx i)) ∧
      s' = { s with
        terminal_dispatch_tasks := alistInsert terminal0 st.task_profile.task_id st
        user_submitted_tasks :=
          s.user_submitted_tasks.filter
            (fun u => !(u == st.task_profile.task_id))
        active_dispatch_tasks :=
          alistErase s.active_dispatch_tasks st.task_profile.task_id } := by
  unfold terminate_task at h
  by_cases hcap : s.terminal_dispatch_tasks.length ≥ s.terminated_tasks_max_size
  · simp only [hcap, if_true] at h
    cases hev : evictIndex s.terminal_dispatch_tasks with
    | none => rw [hev] at h; simp at h
    | some i =>
      rw [hev] at h
      simp only [Option.some.injEq] at h
      exact ⟨s.terminal_dispatch_tasks.eraseIdx i,
        Or.inr ⟨hcap, i, rfl, rfl⟩, h.symm⟩
  · simp only [hcap, if_false, Option.some.injEq] at h
    exact ⟨s.terminal_dispatch_tasks,
      Or.inl ⟨Nat.not_le.mp hcap, rfl⟩, h.symm⟩

theorem terminate_task_no_evict {s : DispatcherState} (st : TaskStatus)
    (h : s.terminal_dispatch_tasks.length < s.terminated_tasks_max_size) :
    terminate_task s st = some { s with
      terminal_dispatch_tasks :=
        alistInsert s.terminal_dispatch_tasks st.task_profile.task_id st
      user_submitted_tasks :=
        s.user_submitted_tasks.filter (fun u => !(u == st.task_profile.task_id))
      active_dispatch_tasks :=
        alistErase s.active_dispatch_tasks st.task_profile.task_id } := by
  unfold terminate_task
  have : ¬ s.terminal_dispatch_tasks.length ≥ s.terminated_tasks_max_size :=
    Nat.not_le.mpr h
  simp only [this, if_false]

theorem terminate_task_frame {s : DispatcherState} {st : TaskStatus}
    {s' : DispatcherState} (h : terminate_task s st = some s') :
    s'.queue_bidding_tasks = s.queue_bidding_tasks ∧
    s'.task_counter = s.task_counter ∧
    s'.terminated_tasks_max_size = s.terminated_tasks_max_size := by
  obtain ⟨t0, _, rfl⟩ := terminate_task_some h
  exact ⟨rfl, rfl, rfl⟩

theorem evictLoop_min (l : DispatchTasks) :
    ∀ fuel it rm, l.length - it = fuel → rm < l.length →
    (∀ j, j < it → timeAt l rm ≤ timeAt l j) →
    ∃ i, evictLoop l fuel it rm = some i ∧ i < l.length ∧
      ∀ j, j < l.length → timeAt l i ≤ timeAt l j := by
  intro fuel
  induction fuel with
  | zero =>
    intro it rm hf hrm hmin
    rw [evictLoop]
    exact ⟨rm, rfl, hrm, fun j hj => hmin j (by omega)⟩
  | succ fuel ih =>
    intro it rm hf hrm hmin
    have hit : it < l.length := by omega
    have ha : l[it]? = some l[it] := List.getElem?_eq_getElem hit
    have hb : l[rm]? = some l[rm] := List.getElem?_eq_getElem hrm
    rw [evictLoop]
    simp only [ha, hb]
    by_cases hc : submissionTime l[it] < submissionTime l[rm]
    · rw [if_pos hc]
      refine ih (it + 1) it (by omega) hit ?_
      intro j hj
      rcases Nat.lt_or_ge j it with hji | hji
      · have h1 := hmin j hji
        have h2 : timeAt l it ≤ timeAt l rm := by
          rw [timeAt_eq hit, timeAt_eq hrm]
          exact le_of_lt hc
        exact le_trans h2 h1
      · have : j = it := by omega
        rw [this]
    · rw [if_neg hc]
      refine ih (it + 1) rm (by omega) hrm ?_
      intro j hj
      rcases Nat.lt_or_ge j it with hji | hji
      · exact hmin j hji
      · have : j = it := by omega
        rw [this, timeAt_eq hit, timeAt_eq hrm]
        exact le_of_not_lt hc

theorem evictIndex_min {l : DispatchTasks} (h : 2 ≤ l.length) :
    ∃ i, evictIndex l = some i ∧ i < l.length ∧
      ∀ e ∈ l, timeAt l i ≤ submissionTime e := by
  have h0 : ¬ l.length = 0 := by omega
  unfold evictIndex
  rw [if_neg h0]
  obtain ⟨i, hi, hlt, hmin⟩ :=
    evictLoop_min l l.length 0 1 (by omega) (by omega) (by omega)
  refine ⟨i, hi, hlt, ?_⟩
  intro e he
  obtain ⟨j, hj, rfl⟩ := List.mem_iff_getElem.mp he
  have := hmin j hj
  rwa [timeAt_eq hj] at this

theorem evictIndex_singleton (e : String × TaskStatus) :
    evictIndex [e] = none := by
  unfold evictIndex
  rw [if_neg (by simp)]
  rw [show ([e] : DispatchTasks).length = 1 from rfl, evictLoop]
  simp

/-! Lemmas about the self-generated-task sweep. -/

theorem filter_bne_of_not_mem {l : List String} {id : String} (h : id ∉ l) :
    l.filter (fun u => !(u == id)) = l := by
  induction l with
  | nil => rfl
  | cons e rest ih =>
    simp only [List.mem_cons, not_or] at h
    have he : (e == id) = false := by
      simp only [beq_eq_false_iff_ne]
      exact fun hh => h.1 hh.symm
    simp [List.filter_cons, he, ih h.2]

theorem sweepLoop_spec (fleet : String) :
    ∀ (entries : List (String × TaskStatus)) (s : DispatcherState),
    s.terminal_dispatch_tasks.length + entries.length ≤
      s.terminated_tasks_max_size →
    (∀ e ∈ entries, e.2.task_profile.task_id = e.1) →
    ∃ s', sweepLoop fleet entries s = some s' ∧
      s'.user_submitted_tasks = s.user_submitted_tasks ∧
      s'.queue_bidding_tasks = s.queue_bidding_tasks ∧
      s'.task_counter = s.task_counter ∧
      s'.terminated_tasks_max_size = s.terminated_tasks_max_size ∧
      s'.active_dispatch_tasks = s.active_dispatch_tasks.filter
        (fun a => decide (a.1 ∉
          (sweptEntries fleet s.user_submitted_tasks entries).map Prod.fst)) ∧
      s'.terminal_dispatch_tasks.length ≤
        s.terminal_dispatch_tasks.length + entries.length ∧
      (∀ k v, alistFind? s.terminal_dispatch_tasks k = some v →
        k ∉ (sweptEntries fleet s.user_submitted_tasks entries).map Prod.fst →
        alistFind? s'.terminal_dispatch_tasks k = some v) ∧
      ((entries.map Prod.fst).Nodup →
        ∀ e ∈ sweptEntries fleet s.user_submitted_tasks entries,
          alistFind? s'.terminal_dispatch_tasks e.1 =
            some { e.2 with state := TaskState.canceled }) := by
  intro entries
  induction entries with
  | nil =>
    intro s _ _
    refine ⟨s, rfl, rfl, rfl, rfl, rfl, ?_, by omega, ?_, ?_⟩
    · simp [sweptEntries]
    · intro k v hk _
      exact hk
    · intro _ e he
      simp [sweptEntries] at he
  | cons hd rest ih =>
    obtain ⟨id, st⟩ := hd
    intro s hcap hkeys
    have hk : st.task_profile.task_id = id := hkeys (id, st) (List.mem_cons_self _ _)
    have hkeys' : ∀ e ∈ rest, e.2.task_profile.task_id = e.1 :=
      fun e he => hkeys e (List.mem_cons_of_mem _ he)
    simp only [sweepLoop]
    by_cases hc : fleet = st.fleet_name ∧ id ∉ s.user_submitted_tasks
    · rw [if_pos hc]
      have hlt : s.terminal_dispatch_tasks.length <
          s.terminated_tasks_max_size := by
        simp only [List.length_cons] at hcap
        omega
      rw [terminate_task_no_evict { st with state := TaskState.canceled } hlt]
      set st' : TaskStatus := { st with state := TaskState.canceled } with hst'
      have hid : st'.task_profile.task_id = id := hk
      set s1 : DispatcherState := { s with
        terminal_dispatch_tasks :=
          alistInsert s.terminal_dispatch_tasks st'.task_profile.task_id st'
        user_submitted_tasks :=
          s.user_submitted_tasks.filter
            (fun u => !(u == st'.task_profile.task_id))
        active_dispatch_tasks :=
          alistErase s.active_dispatch_tasks st'.task_profile.task_id } with hs1
      have huser1 : s1.user_submitted_tasks = s.user_submitted_tasks := by
        rw [hs1]
        simp only
        rw [hid]
        exact filter_bne_of_not_mem hc.2
      have hterm1 : s1.terminal_dispatch_tasks =
          alistInsert s.terminal_dispatch_tasks id st' := by
        rw [hs1]
        simp only
        rw [hid]
      have hlen1 : s1.terminal_dispatch_tasks.length ≤
          s.terminal_dispatch_tasks.length + 1 := by
        rw [hterm1]
        exact length_alistInsert _ _ _
      have hcap1 : s1.terminal_dispatch_tasks.length + rest.length ≤
          s1.terminated_tasks_max_size := by
        have : s1.terminated_tasks_max_size = s.terminated_tasks_max_size := rfl
        rw [this]
        simp only [List.length_cons] at hcap
        omega
      obtain ⟨s', hrun, huser, hqueue, hcounter, hmax, hactive, hlen, hpres,
        hswept⟩ := ih s1 hcap1 hkeys'
      have hsweptCons : sweptEntries fleet s.user_submitted_tasks ((id, st) :: rest) =
          (id, st) :: sweptEntries fleet s.user_submitted_tasks rest := by
        unfold sweptEntries
        rw [List.filter_cons, if_pos (by simpa using hc)]
      refine ⟨s', hrun, huser.trans huser1, hqueue, hcounter, hmax, ?_, ?_, ?_, ?_⟩
      · rw [hactive, huser1, hs1]
        simp only
        rw [hid]
        unfold alistErase
        rw [List.filter_filter, hsweptCons]
        apply List.filter_congr
        intro a _
        by_cases h1 : a.1 = id <;>
          by_cases h2 : a.1 ∈
            (sweptEntries fleet s.user_submitted_tasks rest).map Prod.fst <;>
          simp [h1, h2]
      · simp only [List.length_cons]
        omega
      · intro k v hkv hknot
        rw [hsweptCons, List.map_cons, List.mem_cons, not_or] at hknot
        refine hpres k v ?_ (by rw [huser1]; exact hknot.2)
        rw [hterm1, alistFind?_insert_ne _ _ _ _ hknot.1]
        exact hkv
      · intro hnodup e he
        rw [hsweptCons] at he
        simp only [List.map_cons, List.nodup_cons] at hnodup
        rcases List.mem_cons.mp he with he | he
        · subst he
          have hfind1 : alistFind? s1.terminal_dispatch_tasks id = some st' := by
            rw [hterm1]
            exact alistFind?_insert_self _ _ _
          have hnot : id ∉
              (sweptEntries fleet s1.user_submitted_tasks rest).map Prod.fst := by
            rw [huser1]
            intro hmem
            apply hnodup.1
            unfold sweptEntries at hmem
            obtain ⟨e', he', rfl⟩ := List.mem_map.mp hmem
            exact List.mem_map.mpr ⟨e', List.mem_of_mem_filter he', rfl⟩
          have := hpres id st' hfind1 hnot
          rw [this]
        · have := hswept hnodup.2
          rw [huser1] at this
          exact this e he
    · rw [if_neg hc]
      have hcap2 : s.terminal_dispatch_tasks.length + rest.length ≤
          s.terminated_tasks_max_size := by
        simp only [List.length_cons] at hcap
        omega
      obtain ⟨s', hrun, huser, hqueue, hcounter, hmax, hactive, hlen, hpres,
        hswept⟩ := ih s hcap2 hkeys'
      have hsweptCons : sweptEntries fleet s.user_submitted_tasks ((id, st) :: rest) =
          sweptEntries fleet s.user_submitted_tasks rest := by
        unfold sweptEntries
        rw [List.filter_cons, if_neg (by simpa using hc)]
      refine ⟨s', hrun, huser, hqueue, hcounter, hmax, ?_, ?_, ?_, ?_⟩
      · rw [hactive, hsweptCons]
      · simp only [List.length_cons]
        omega
      · intro k v hkv hknot
        rw [hsweptCons] at hknot
        exact hpres k v hkv hknot
      · intro hnodup e he
        rw [hsweptCons] at he
        simp only [List.map_cons, List.nodup_cons] at hnodup
        exact hswept hnodup.2 e he

/-! Decimal printing: `Nat.repr` agrees with `decDigits`, whose digits are
digit characters and whose value determines its input. -/

theorem toDigitsCore_eq_decDigits (fuel : Nat) :
    ∀ n ds, n < fuel →
      Nat.toDigitsCore 10 fuel n ds = decDigits n ++ ds := by
  induction fuel with
  | zero =>
    intro n ds h
    omega
  | succ fuel ih =>
    intro n ds h
    rw [decDigits]
    by_cases h10 : n / 10 = 0
    · simp [Nat.toDigitsCore, h10]
    · have hpos : 0 < n := by
        rcases Nat.eq_zero_or_pos n with h0 | h0
        · exact absurd (by rw [h0]) h10
        · exact h0
      have hlt : n / 10 < fuel := by
        have hdiv : n / 10 < n := Nat.div_lt_self hpos (by norm_num)
        omega
      simp only [Nat.toDigitsCore, h10, if_false]
      rw [ih (n / 10) _ hlt]
      simp [List.append_assoc]

theorem toDigits_eq_decDigits (n : Nat) : Nat.toDigits 10 n = decDigits n := by
  unfold Nat.toDigits
  rw [toDigitsCore_eq_decDigits (n + 1) n [] (by omega), List.append_nil]

theorem repr_data_eq_decDigits (n : Nat) : (Nat.repr n).data = decDigits n := by
  show (Nat.toDigits 10 n).asString.data = decDigits n
  rw [toDigits_eq_decDigits]
  rfl

theorem digitVal_digitChar : ∀ d, d < 10 → digitVal (Nat.digitChar d) = d := by
  decide

theorem digitChar_mem_digitChars : ∀ d, d < 10 →
    Nat.digitChar d ∈ digitChars := by
  decide

theorem denote_append (l : List Char) (c : Char) :
    denote (l ++ [c]) = 10 * denote l + digitVal c := by
  unfold denote
  rw [List.foldl_append]
  rfl

theorem denote_decDigits (n : Nat) : denote (decDigits n) = n := by
  induction n using Nat.strong_induction_on with
  | _ n ih =>
    rw [decDigits]
    by_cases h10 : n / 10 = 0
    · rw [dif_pos h10]
      have hn : n < 10 := by omega
      have : denote [Nat.digitChar (n % 10)] =
          digitVal (Nat.digitChar (n % 10)) := by
        unfold denote
        simp
      rw [this, digitVal_digitChar (n % 10) (by omega)]
      omega
    · have hpos : 0 < n := by
        rcases Nat.eq_zero_or_pos n with h0 | h0
        · exact absurd (by rw [h0]) h10
        · exact h0
      have hdiv : n / 10 < n := Nat.div_lt_self hpos (by norm_num)
      rw [dif_neg h10, denote_append, ih (n / 10) hdiv,
        digitVal_digitChar (n % 10) (by omega)]
      omega

theorem decDigits_mem_digitChars {n : Nat} :
    ∀ c ∈ decDigits n, c ∈ digitChars := by
  induction n using Nat.strong_induction_on with
  | _ n ih =>
    rw [decDigits]
    by_cases h10 : n / 10 = 0
    · rw [dif_pos h10]
      intro c hc
      rw [List.mem_singleton] at hc
      rw [hc]
      exact digitChar_mem_digitChars (n % 10) (by omega)
    · have hpos : 0 < n := by
        rcases Nat.eq_zero_or_pos n with h0 | h0
        · exact absurd (by rw [h0]) h10
        · exact h0
      have hdiv : n / 10 < n := Nat.div_lt_self hpos (by norm_num)
      rw [dif_neg h10]
      intro c hc
      rcases List.mem_append.mp hc with hc | hc
      · exact ih (n / 10) hdiv c hc
      · rw [List.mem_singleton] at hc
        rw [hc]
        exact digitChar_mem_digitChars (n % 10) (by omega)

theorem nat_repr_injective {m n : Nat} (h : Nat.repr m = Nat.repr n) :
    m = n := by
  have hd : (Nat.repr m).data = (Nat.repr n).data := by rw [h]
  rw [repr_data_eq_decDigits, repr_data_eq_decDigits] at hd
  calc m = denote (decDigits m) := (denote_decDigits m).symm
    _ = denote (decDigits n) := by rw [hd]
    _ = n := denote_decDigits n

theorem typeNames_no_digit :
    ∀ s ∈ typeNames, ∀ c ∈ s.data, c ∉ digitChars := by
  decide

theorem task_type_name_mem {t : Nat} {name : String}
    (h : task_type_name t = some name) : name ∈ typeNames := by
  unfold task_type_name at h
  split at h <;> simp_all [typeNames]

theorem minted_id_ne {n1 n2 : String} (h1 : n1 ∈ typeNames)
    (h2 : n2 ∈ typeNames) {c1 c2 : Nat} (hc : c1 ≠ c2) :
    n1 ++ Nat.repr c1 ≠ n2 ++ Nat.repr c2 := by
  intro heq
  have hdata : n1.data ++ (Nat.repr c1).data = n2.data ++ (Nat.repr c2).data := by
    have : (n1 ++ Nat.repr c1).data = (n2 ++ Nat.repr c2).data := by rw [heq]
    simpa using this
  rcases List.append_eq_append_iff.mp hdata with ⟨a, ha1, ha2⟩ | ⟨a, ha1, ha2⟩
  · match a with
    | [] =>
      have hn : n1 = n2 := by
        apply String.ext
        rw [ha1, List.append_nil]
      have hr : Nat.repr c1 = Nat.repr c2 := by
        apply String.ext
        rw [ha2, List.nil_append]
      exact hc (nat_repr_injective hr)
    | ch :: a =>
      have hch1 : ch ∈ n2.data := by
        rw [ha1]
        exact List.mem_append.mpr (Or.inr (List.mem_cons_self _ _))
      have hch2 : ch ∈ decDigits c1 := by
        have : ch ∈ (Nat.repr c1).data := by
          rw [ha2]
          exact List.mem_cons_self _ _
        rwa [repr_data_eq_decDigits] at this
      exact typeNames_no_digit n2 h2 ch hch1 (decDigits_mem_digitChars ch hch2)
  · match a with
    | [] =>
      have hn : n2 = n1 := by
        apply String.ext
        rw [ha1, List.append_nil]
      have hr : Nat.repr c2 = Nat.repr c1 := by
        apply String.ext
        rw [ha2, List.nil_append]
      exact hc (nat_repr_injective hr.symm)
    | ch :: a =>
      have hch1 : ch ∈ n1.data := by
        rw [ha1]
        exact List.mem_append.mpr (Or.inr (List.mem_cons_self _ _))
      have hch2 : ch ∈ decDigits c2 := by
        have : ch ∈ (Nat.repr c2).data := by
          rw [ha2]
          exact List.mem_cons_self _ _
        rwa [repr_data_eq_decDigits] at this
      exact typeNames_no_digit n1 h1 ch hch1 (decDigits_mem_digitChars ch hch2)

/-! Disjointness preservation and frame lemmas. -/

theorem tablesDisjoint_iff_keys {s : DispatcherState} :
    tablesDisjoint s = true ↔
      ∀ k, k ∈ s.active_dispatch_tasks.map Prod.fst →
        alistFind? s.terminal_dispatch_tasks k = none := by
  rw [tablesDisjoint_iff]
  constructor
  · intro h k hk
    obtain ⟨e, he, rfl⟩ := List.mem_map.mp hk
    exact h e he
  · intro h e he
    exact h e.1 (List.mem_map.mpr ⟨e, he, rfl⟩)

theorem tablesDisjoint_terminate {s : DispatcherState} {st : TaskStatus}
    {s' : DispatcherState} (hdis : tablesDisjoint s = true)
    (h : terminate_task s st = some s') : tablesDisjoint s' = true := by
  obtain ⟨t0, ht0, rfl⟩ := terminate_task_some h
  rw [tablesDisjoint_iff] at hdis ⊢
  intro e he
  simp only at he ⊢
  have hmem : e ∈ s.active_dispatch_tasks := List.mem_of_mem_filter he
  have hne : e.1 ≠ st.task_profile.task_id := by
    have := List.of_mem_filter he
    simpa using this
  rw [alistFind?_insert_ne _ _ _ _ hne]
  have hnone := hdis e hmem
  rw [alistFind?_eq_none] at hnone ⊢
  intro e' he'
  apply hnone e'
  rcases ht0 with ⟨_, rfl⟩ | ⟨_, i, _, rfl⟩
  · exact he'
  · exact mem_of_mem_eraseIdx he'

theorem tablesDisjoint_sweepLoop (fleet : String) :
    ∀ (entries : List (String × TaskStatus)) (s s' : DispatcherState),
    tablesDisjoint s = true → sweepLoop fleet entries s = some s' →
    tablesDisjoint s' = true := by
  intro entries
  induction entries with
  | nil =>
    intro s s' hdis h
    simp only [sweepLoop, Option.some.injEq] at h
    rw [← h]
    exact hdis
  | cons hd rest ih =>
    obtain ⟨id, st⟩ := hd
    intro s s' hdis h
    simp only [sweepLoop] at h
    by_cases hc : fleet = st.fleet_name ∧ id ∉ s.user_submitted_tasks
    · rw [if_pos hc] at h
      cases ht : terminate_task s { st with state := TaskState.canceled } with
      | none => rw [ht] at h; simp at h
      | some s1 =>
        rw [ht] at h
        exact ih s1 s' (tablesDisjoint_terminate hdis ht) h
    · rw [if_neg hc] at h
      exact ih s s' hdis h

theorem sweepLoop_frame (fleet : String) :
    ∀ (entries : List (String × TaskStatus)) (s s' : DispatcherState),
    sweepLoop fleet entries s = some s' →
    s'.queue_bidding_tasks = s.queue_bidding_tasks ∧
    s'.task_counter = s.task_counter ∧
    s'.terminated_tasks_max_size = s.terminated_tasks_max_size := by
  intro entries
  induction entries with
  | nil =>
    intro s s' h
    simp only [sweepLoop, Option.some.injEq] at h
    rw [← h]
    exact ⟨rfl, rfl, rfl⟩
  | cons hd rest ih =>
    obtain ⟨id, st⟩ := hd
    intro s s' h
    simp only [sweepLoop] at h
    by_cases hc : fleet = st.fleet_name ∧ id ∉ s.user_submitted_tasks
    · rw [if_pos hc] at h
      cases ht : terminate_task s { st with state := TaskState.canceled } with
      | none => rw [ht] at h; simp at h
      | some s1 =>
        rw [ht] at h
        obtain ⟨h1, h2, h3⟩ := ih s1 s' h
        obtain ⟨g1, g2, g3⟩ := terminate_task_frame ht
        exact ⟨h1.trans g1, h2.trans g2, h3.trans g3⟩
    · rw [if_neg hc] at h
      exact ih s s' h

theorem countAcks_setQueueEvents (f : FleetState) (a : Assignments) :
    countAcks (setQueueEvents f a) = 0 := by
  unfold countAcks setQueueEvents
  rw [List.countP_eq_zero]
  intro e he
  obtain ⟨i, _, rfl⟩ := List.mem_map.mp he
  simp

theorem countAcks_append (l1 l2 : List FleetEvent) :
    countAcks (l1 ++ l2) = countAcks l1 + countAcks l2 := by
  unfold countAcks
  exact List.countP_append _ _ _

/-! Claim theorems. -/

/-- C7: a submission whose task type tag is unknown fails with message
"Task type is invalid"; no TaskStatus is created in either table, the
user-submitted set, bidding queue and task counter are unchanged, no
BidNotice is enqueued or started, and no observer notification fires. -/
theorem c7_invalid_type_submission (s : DispatcherState) (now : Int)
    (d : TaskDescription) (h : task_type_name d.task_type = none) :
    submit_task_srv s now d =
      (⟨false, "Task type is invalid", ""⟩, ⟨none, s, none, []⟩) := by
  unfold submit_task_srv submit_task
  rw [h]

/-- Witness for C7 at the unknown type tag 42 in the empty dispatcher. -/
theorem c7_invalid_type_submission_witness :
    submit_task_srv emptyDispatcher 0 ⟨42⟩ =
      (⟨false, "Task type is invalid", ""⟩, ⟨none, emptyDispatcher, none, []⟩) :=
  c7_invalid_type_submission emptyDispatcher 0 ⟨42⟩ rfl

/-- C10: the eviction scan dereferences the iterator after `begin()`
unconditionally, so it is well-defined only with at least two terminal
entries: with `terminated_tasks_max_size ≤ 1`, a terminate performed with
exactly one entry in the terminal table reads through the past-the-end
iterator and the total embedding yields no result, while with two or more
entries the scan always yields an index. -/
theorem c10_eviction_scan_definedness (s : DispatcherState) (st : TaskStatus)
    (l : DispatchTasks)
    (h1 : s.terminal_dispatch_tasks.length = 1)
    (h2 : s.terminated_tasks_max_size ≤ 1) :
    terminate_task s st = none ∧
    (2 ≤ l.length → (evictIndex l).isSome = true) := by
  constructor
  · obtain ⟨e, he⟩ := List.length_eq_one.mp h1
    unfold terminate_task
    rw [if_pos (by omega), he, evictIndex_singleton]
  · intro hl
    obtain ⟨i, hi, _, _⟩ := evictIndex_min hl
    rw [hi]
    rfl

/-- Witness for C10: a one-entry terminal table at capacity 1 makes terminate
undefined, and a two-entry table gives a defined scan. -/
theorem c10_witness :
    terminate_task c10state c4stA = none ∧
    (evictIndex [("B", c4stB), ("C", c4stC)]).isSome = true := by
  obtain ⟨h1, h2⟩ := c10_eviction_scan_definedness c10state c4stA
    [("B", c4stB), ("C", c4stC)] (by decide) (by decide)
  exact ⟨h1, h2 (by decide)⟩

/-- C9: on a CANCEL dispatch request addressed to the fleet, an id already in
the cancelled set is acknowledged `success = true` with the state unchanged,
no re-planning and no robot-queue update; an id not in `assigned_requests`,
or one reported executed by a TaskManager (and not already cancelled), is
acknowledged `success = false` with the state unchanged. -/
theorem c9_cancel_request_cases (f : FleetState) (replan : AllocateResult)
    (msg_fleet id : String) (hm : msg_fleet = f.name) :
    (id ∈ f.cancelled_task_ids →
      dispatch_request_cb f replan msg_fleet id methodCANCEL =
        (f, [FleetEvent.publishAck ⟨id, methodCANCEL, true⟩])) ∧
    (id ∉ f.cancelled_task_ids → id ∉ f.assigned_requests →
      dispatch_request_cb f replan msg_fleet id methodCANCEL =
        (f, [FleetEvent.publishAck ⟨id, methodCANCEL, false⟩])) ∧
    (id ∉ f.cancelled_task_ids → id ∈ executedTasksUnion f →
      dispatch_request_cb f replan msg_fleet id methodCANCEL =
        (f, [FleetEvent.publishAck ⟨id, methodCANCEL, false⟩])) := by
  subst hm
  have hAdd : ¬ (methodCANCEL = methodADD) := by decide
  refine ⟨?_, ?_, ?_⟩
  · intro h1
    simp [dispatch_request_cb, hAdd, h1]
  · intro h1 h2
    simp [dispatch_request_cb, hAdd, h1, h2]
  · intro h1 h2
    by_cases h3 : id ∈ f.assigned_requests
    · simp [dispatch_request_cb, hAdd, h1, h2, h3]
    · simp [dispatch_request_cb, hAdd, h1, h3]

/-- Witness for C9: a duplicate cancel of "T" is idempotent and a cancel of
the unassigned "U" is rejected in the concrete fleet. -/
theorem c9_witness :
    dispatch_request_cb c9fleet none "fleetA" "T" methodCANCEL =
      (c9fleet, [FleetEvent.publishAck ⟨"T", methodCANCEL, true⟩]) ∧
    dispatch_request_cb c9fleet none "fleetA" "U" methodCANCEL =
      (c9fleet, [FleetEvent.publishAck ⟨"U", methodCANCEL, false⟩]) :=
  ⟨(c9_cancel_request_cases c9fleet none "fleetA" "T" rfl).1 (by decide),
   (c9_cancel_request_cases c9fleet none "fleetA" "U" rfl).2.1 (by decide)
     (by decide)⟩

/-- C6 counterexample: a dispatch request addressed to the fleet whose method
is 7 (neither ADD nor CANCEL) produces no dispatch-ack publication at all,
only a warning; the claim that every matching request is acknowledged fails
here. -/
theorem c6_counterexample :
    (dispatch_request_cb c6fleet none "fleetA" "T" 7).2 =
      [FleetEvent.warnInvalidMethod] ∧
    countAcks (dispatch_request_cb c6fleet none "fleetA" "T" 7).2 = 0 := by
  decide

/-- C6 amended: a dispatch request addressed to the fleet with method ADD or
CANCEL results in exactly one dispatch-ack publication on every path, but a
request whose method is neither ADD nor CANCEL is warned about and dropped
without any acknowledgement. -/
theorem c6_matching_requests_acked (f : FleetState) (replan : AllocateResult)
    (msg_fleet id : String) (m : Nat) (hm : msg_fleet = f.name) :
    ((m = methodADD ∨ m = methodCANCEL) →
      countAcks (dispatch_request_cb f replan msg_fleet id m).2 = 1) ∧
    (m ≠ methodADD → m ≠ methodCANCEL →
      (dispatch_request_cb f replan msg_fleet id m).2 =
        [FleetEvent.warnInvalidMethod]) := by
  subst hm
  constructor
  · rintro (rfl | rfl)
    · unfold dispatch_request_cb
      rw [if_neg (by simp), if_pos rfl]
      cases h1 : alistFind? f.bid_notice_assignments id with
      | none => simp [countAcks]
      | some assignments =>
        by_cases h2 : assignments.length ≠ f.task_managers.length
        · simp [h2, countAcks]
        · by_cases h3 : id ∉ f.generated_requests
          · simp [h2, h3, countAcks]
          · by_cases h4 : is_valid_assignments f assignments
            · simp only [h2, h3, h4]
              simp
              rw [countAcks_append, countAcks_setQueueEvents]
              rfl
            · cases h5 : replan with
              | none => simp [h2, h3, h4, h5, countAcks]
              | some asg =>
                simp only [h2, h3, h4, h5]
                simp
                rw [countAcks_append, countAcks_setQueueEvents]
                rfl
    · have hAdd : ¬ (methodCANCEL = methodADD) := by decide
      unfold dispatch_request_cb
      rw [if_neg (by simp), if_neg hAdd, if_pos rfl]
      by_cases h1 : id ∈ f.cancelled_task_ids
      · simp [h1, countAcks]
      · by_cases h2 : id ∉ f.assigned_requests
        · simp [h1, h2, countAcks]
        · by_cases h3 : id ∈ executedTasksUnion f
          · simp [h1, h2, h3, countAcks]
          · cases h4 : replan with
            | none => simp [h1, h2, h3, h4, countAcks]
            | some asg =>
              simp only [h1, h2, h3, h4]
              simp
              rw [countAcks_append, countAcks_setQueueEvents]
              rfl
  · intro hA hC
    unfold dispatch_request_cb
    rw [if_neg (by simp), if_neg hA, if_neg hC]

/-- Witness for C6: the concrete fleet acks an ADD exactly once and drops
method 7 with only a warning. -/
theorem c6_witness :
    countAcks (dispatch_request_cb c6fleet none "fleetA" "T" methodADD).2 = 1 ∧
    (dispatch_request_cb c6fleet none "fleetA" "T" 7).2 =
      [FleetEvent.warnInvalidMethod] :=
  ⟨(c6_matching_requests_acked c6fleet none "fleetA" "T" methodADD rfl).1
      (Or.inl rfl),
   (c6_matching_requests_acked c6fleet none "fleetA" "T" 7 rfl).2
      (by decide) (by decide)⟩

/-- Helper: table disjointness ignores the bidding queue. -/
theorem tablesDisjoint_set_queue (s : DispatcherState) (q : List BidNotice) :
    tablesDisjoint { s with queue_bidding_tasks := q } = tablesDisjoint s := rfl

/-- Helper: a status callback never touches the terminal table, and changes
the active table only by admitting an absent id. -/
theorem task_status_cb_tables (s : DispatcherState) (st : TaskStatus) :
    (task_status_cb s st).state.terminal_dispatch_tasks =
      s.terminal_dispatch_tasks ∧
    (task_status_cb s st).state.active_dispatch_tasks =
      (if (alistFind? s.active_dispatch_tasks st.task_profile.task_id).isSome
       then s.active_dispatch_tasks
       else alistInsert s.active_dispatch_tasks st.task_profile.task_id st) := by
  by_cases hin :
      (alistFind? s.active_dispatch_tasks st.task_profile.task_id).isSome
  all_goals cases hq : s.queue_bidding_tasks with
  | nil => simp [task_status_cb, hq, hin]
  | cons front rest =>
    by_cases hf : front.task_profile.task_id = st.task_profile.task_id
    · simp [task_status_cb, hq, hf, hin]
    · simp [task_status_cb, hq, hf, hin]

/-- C1 counterexample: after submitting "Loop0" and completing its auction
with no submissions, the id sits in the terminal table; a subsequent status
callback carrying "Loop0" consults only the active table and re-inserts the
id there, so "Loop0" is then present in both tables at once and the claimed
invariant fails at this observable moment. -/
theorem c1_counterexample :
    (receive_bidding_winner_cb (submit_task emptyDispatcher 0 ⟨1⟩).state
        "Loop0" none).isSome = true ∧
    tablesDisjoint c1afterFail = true ∧
    tablesDisjoint (task_status_cb c1afterFail c1stray).state = false ∧
    (alistFind? (task_status_cb c1afterFail c1stray).state.active_dispatch_tasks
        "Loop0").isSome = true ∧
    (alistFind? (task_status_cb c1afterFail c1stray).state.terminal_dispatch_tasks
        "Loop0").isSome = true := by
  decide

/-- C1 amended: table disjointness is preserved by submit (when the minted id
is not already terminal), by cancel, by the auction-completion callback and
by terminate; a status callback preserves it only when the reported id is not
terminal-resident-only — for an id in the terminal table but absent from the
active table, `task_status_cb` re-inserts the id into the active table and
the invariant breaks. -/
theorem c1_tables_disjoint_preserved (s : DispatcherState)
    (hdis : tablesDisjoint s = true) :
    (∀ now d id, (submit_task s now d).returned_id = some id →
      (alistFind? s.terminal_dispatch_tasks id).isNone = true →
      tablesDisjoint (submit_task s now d).state = true) ∧
    (∀ task_id ack r, cancel_task s task_id ack = some r →
      tablesDisjoint r.state = true) ∧
    (∀ task_id w r, receive_bidding_winner_cb s task_id w = some r →
      tablesDisjoint r.state = true) ∧
    (∀ st s', terminate_task s st = some s' → tablesDisjoint s' = true) ∧
    (∀ st,
      ((alistFind? s.terminal_dispatch_tasks st.task_profile.task_id).isNone = true ∨
        (alistFind? s.active_dispatch_tasks st.task_profile.task_id).isSome = true) →
      tablesDisjoint (task_status_cb s st).state = true) := by
  refine ⟨?_, ?_, ?_, ?_, ?_⟩
  · intro now d id hid hterm
    cases h : task_type_name d.task_type with
    | none => simp [submit_task, h] at hid
    | some name =>
      simp only [submit_task, h] at hid ⊢
      simp only [Option.some.injEq] at hid
      rw [tablesDisjoint_iff_keys]
      intro k hk
      simp only at hk ⊢
      rcases mem_keys_alistInsert.mp hk with hk | hk
      · exact tablesDisjoint_iff_keys.mp hdis k hk
      · rw [hk, hid]
        exact Option.isNone_iff_eq_none.mp hterm
  · intro task_id ack r h
    unfold cancel_task at h
    split at h
    · simp only [Option.some.injEq] at h
      rw [← h]
      exact hdis
    · split at h
      · split at h
        · exact absurd h (by simp)
        · rename_i s1 ht
          simp only [Option.some.injEq] at h
          rw [← h]
          exact tablesDisjoint_terminate hdis ht
      · split at h
        · simp only [Option.some.injEq] at h
          rw [← h]
          exact hdis
        · split at h
          · simp only [Option.some.injEq] at h
            rw [← h]
            exact hdis
          · split at h
            · exact absurd h (by simp)
            · rename_i s1 hs
              simp only [Option.some.injEq] at h
              rw [← h]
              exact tablesDisjoint_sweepLoop _ _ s s1 hdis hs
  · intro task_id w r h
    unfold receive_bidding_winner_cb at h
    split at h
    · simp only [Option.some.injEq] at h
      rw [← h]
      exact hdis
    · rename_i st hfind
      split at h
      · split at h
        · exact absurd h (by simp)
        · rename_i s1 ht
          split at h
          · exact absurd h (by simp)
          · simp only [Option.some.injEq] at h
            rw [← h]
            show tablesDisjoint { s1 with queue_bidding_tasks := _ } = true
            rw [tablesDisjoint_set_queue]
            exact tablesDisjoint_terminate hdis ht
      · rename_i fleet
        have hdis1 : tablesDisjoint ({ s with active_dispatch_tasks :=
            (alistInsert s.active_dispatch_tasks task_id
              ({ st with fleet_name := fleet })) }) = true := by
          rw [tablesDisjoint_iff_keys]
          intro k hk
          simp only at hk ⊢
          rcases mem_keys_alistInsert.mp hk with hk | hk
          · exact tablesDisjoint_iff_keys.mp hdis k hk
          · rw [hk]
            apply tablesDisjoint_iff_keys.mp hdis
            rw [← alistFind?_isSome, hfind]
            rfl
        split at h
        · exact absurd h (by simp)
        · rename_i s2 hs
          simp only [Option.some.injEq] at h
          rw [← h]
          exact tablesDisjoint_sweepLoop fleet _ _ s2 hdis1 hs
  · intro st s' h
    exact tablesDisjoint_terminate hdis h
  · intro st hside
    obtain ⟨hterm, hact⟩ := task_status_cb_tables s st
    rw [tablesDisjoint_iff_keys, hterm, hact]
    intro k hk
    by_cases hin : (alistFind? s.active_dispatch_tasks st.task_profile.task_id).isSome
    · rw [if_pos hin] at hk
      exact tablesDisjoint_iff_keys.mp hdis k hk
    · rw [if_neg hin] at hk
      rcases mem_keys_alistInsert.mp hk with hk | hk
      · exact tablesDisjoint_iff_keys.mp hdis k hk
      · rw [hk]
        rcases hside with hside | hside
        · exact Option.isNone_iff_eq_none.mp hside
        · exact absurd hside hin

/-- Witness for C1: in the empty (disjoint) dispatcher a status callback for
a fresh id preserves disjointness. -/
theorem c1_witness :
    tablesDisjoint (task_status_cb emptyDispatcher c1stray).state = true :=
  (c1_tables_disjoint_preserved emptyDispatcher (by decide)).2.2.2.2 c1stray
    (Or.inl (by decide))

/-- C2 counterexample: with "Loop0" active at the head of a two-element
bidding queue, delivering a winning submission leaves the queue untouched
(both notices still queued, "Loop0" still at the head) and starts no new
auction, so the queue head is not popped in the winning case. -/
theorem c2_counterexample :
    (receive_bidding_winner_cb c2state "Loop0" (some "fleetA")).map
        (fun r => (r.state.queue_bidding_tasks, r.bid_started)) =
      some ([⟨c2p0⟩, ⟨c2p1⟩], none) := by
  decide

/-- C2 amended: when the auction completion handler runs for a still-active
task, the bidding-queue head is popped — and the next auction started when
notices remain — only in the no-submission branch; with a winning submission
the queue is left unchanged, no bidding is started, and the task is handed
to the action client instead. -/
theorem c2_queue_advance (s : DispatcherState) (task_id : String)
    (st : TaskStatus)
    (hfind : alistFind? s.active_dispatch_tasks task_id = some st) :
    (∀ s1 front rest,
      terminate_task s ({ st with state := TaskState.failed }) = some s1 →
      s1.queue_bidding_tasks = front :: rest →
      receive_bidding_winner_cb s task_id none =
        some ⟨{ s1 with queue_bidding_tasks := rest }, rest.head?, none,
          [{ st with state := TaskState.failed }]⟩) ∧
    (∀ fleet r, receive_bidding_winner_cb s task_id (some fleet) = some r →
      r.state.queue_bidding_tasks = s.queue_bidding_tasks ∧
      r.bid_started = none ∧
      r.added_task = some (fleet, { st with fleet_name := fleet })) := by
  constructor
  · intro s1 front rest ht hq
    simp only [receive_bidding_winner_cb, hfind, ht, hq]
  · intro fleet r h
    simp only [receive_bidding_winner_cb, hfind] at h
    split at h
    · exact absurd h (by simp)
    · rename_i s2 hs
      simp only [Option.some.injEq] at h
      rw [← h]
      obtain ⟨hq, _, _⟩ := sweepLoop_frame fleet _ _ _ hs
      exact ⟨hq, rfl, rfl⟩

/-- Witness for C2: in the concrete two-notice state, a no-submission
completion pops "Loop0" and starts bidding on "Loop1", while a winning
completion leaves both notices queued, starts nothing and hands the task
over. -/
theorem c2_witness :
    receive_bidding_winner_cb c2state "Loop0" none =
      some ⟨{ c2s1 with queue_bidding_tasks := [⟨c2p1⟩] },
        ([(⟨c2p1⟩ : BidNotice)]).head?, none, [⟨c2p0, "", TaskState.failed⟩]⟩ ∧
    (c2winResult.state.queue_bidding_tasks = c2state.queue_bidding_tasks ∧
      c2winResult.bid_started = none ∧
      c2winResult.added_task =
        some ("fleetA", ⟨c2p0, "fleetA", TaskState.pending⟩)) :=
  ⟨(c2_queue_advance c2state "Loop0" ⟨c2p0, "", TaskState.pending⟩
      (by decide)).1 c2s1 ⟨c2p0⟩ [⟨c2p1⟩] (by decide) (by decide),
   (c2_queue_advance c2state "Loop0" ⟨c2p0, "", TaskState.pending⟩
      (by decide)).2 "fleetA" c2winResult (by decide)⟩

/-- C3: cancel resolves its cases in the spec's order: an id absent from the
active table returns false; a Pending task is set to Canceled, terminated
locally, the observer notified, and true returned; an id outside the
user-submitted set returns false; a Queued user-submitted task triggers the
self-generated sweep for its fleet and the cancel is forwarded, returning the
fleet's acknowledgement; any other state (including Executing) returns
false. -/
theorem c3_cancel_cases (s : DispatcherState) (task_id : String)
    (fleet_ack : Bool) :
    (alistFind? s.active_dispatch_tasks task_id = none →
      cancel_task s task_id fleet_ack = some ⟨false, s, []⟩) ∧
    (∀ st, alistFind? s.active_dispatch_tasks task_id = some st →
      (st.state = TaskState.pending →
        cancel_task s task_id fleet_ack =
          (terminate_task s ({ st with state := TaskState.canceled })).map
            (fun s' =>
              ⟨true, s', [{ st with state := TaskState.canceled }]⟩)) ∧
      (st.state ≠ TaskState.pending → task_id ∉ s.user_submitted_tasks →
        cancel_task s task_id fleet_ack = some ⟨false, s, []⟩) ∧
      (st.state ≠ TaskState.pending → task_id ∈ s.user_submitted_tasks →
        st.state ≠ TaskState.queued →
        cancel_task s task_id fleet_ack = some ⟨false, s, []⟩) ∧
      (st.state = TaskState.queued → task_id ∈ s.user_submitted_tasks →
        cancel_task s task_id fleet_ack =
          (sweepLoop st.fleet_name s.active_dispatch_tasks s).map
            (fun s' => ⟨fleet_ack, s', []⟩))) := by
  constructor
  · intro h
    simp only [cancel_task, h]
  · intro st hfind
    refine ⟨?_, ?_, ?_, ?_⟩
    · intro hp
      simp only [cancel_task, hfind, hp, if_true]
      cases terminate_task s ({ st with state := TaskState.canceled }) with
      | none => rfl
      | some s1 => rfl
    · intro hp hu
      simp [cancel_task, hfind, hp, hu]
    · intro hp hu hq
      simp [cancel_task, hfind, hp, hu, hq]
    · intro hq hu
      have hp : ¬ st.state = TaskState.pending := by
        rw [hq]
        intro hh
        exact TaskState.noConfusion hh
      simp only [cancel_task, hfind, hp, if_false, hu, not_true, if_false, hq]
      simp only [ne_eq, not_true_eq_false, if_false]
      cases sweepLoop st.fleet_name s.active_dispatch_tasks s with
      | none => rfl
      | some s1 => rfl

/-- Witness for C3: cancelling the pending "Loop0" in the concrete state
takes the Pending branch. -/
theorem c3_witness :
    cancel_task c3state "Loop0" true =
      (terminate_task c3state
          ({ c3pending with state := TaskState.canceled })).map
        (fun s' => ⟨true, s', [{ c3pending with state := TaskState.canceled }]⟩) :=
  ((c3_cancel_cases c3state "Loop0" true).2 c3pending (by decide)).1 (by decide)

/-- C4 counterexample: with capacity 2 and terminal entries "B" (time 2) and
"C" (time 3), terminating "A" (time 1) evicts "B", and terminating "D"
(time 4) afterwards evicts "A": the two evictions carry submission times 2
and then 1, so evictions are not in non-decreasing submission_time order. -/
theorem c4_counterexample :
    (terminate_task c4state c4stA).map
        (fun s => s.terminal_dispatch_tasks.map Prod.fst) = some ["C", "A"] ∧
    ((terminate_task c4state c4stA).bind
        (fun s => terminate_task s c4stD)).map
        (fun s => s.terminal_dispatch_tasks.map Prod.fst) = some ["C", "D"] ∧
    submissionTime ("B", c4stB) = 2 ∧ submissionTime ("A", c4stA) = 1 := by
  decide

/-- C4 amended: a terminate keeps the terminal table within
`terminated_tasks_max_size` whenever it was within the bound before, and
every eviction performed at capacity removes an entry whose submission_time
is minimal among the entries then present; the parenthetical across-run
non-decreasing eviction order does not hold (see the counterexample). -/
theorem c4_terminal_bound_and_min_eviction (s : DispatcherState)
    (st : TaskStatus) (s' : DispatcherState)
    (h : terminate_task s st = some s')
    (hle : s.terminal_dispatch_tasks.length ≤ s.terminated_tasks_max_size) :
    s'.terminal_dispatch_tasks.length ≤ s.terminated_tasks_max_size ∧
    (s.terminated_tasks_max_size ≤ s.terminal_dispatch_tasks.length →
      ∃ i, evictIndex s.terminal_dispatch_tasks = some i ∧
        i < s.terminal_dispatch_tasks.length ∧
        (∀ e ∈ s.terminal_dispatch_tasks,
          timeAt s.terminal_dispatch_tasks i ≤ submissionTime e) ∧
        s'.terminal_dispatch_tasks =
          alistInsert (s.terminal_dispatch_tasks.eraseIdx i)
            st.task_profile.task_id st) := by
  obtain ⟨t0, ht0, rfl⟩ := terminate_task_some h
  rcases ht0 with ⟨hlt, rfl⟩ | ⟨hcap, i, hev, rfl⟩
  · constructor
    · have := length_alistInsert s.terminal_dispatch_tasks
        st.task_profile.task_id st
      simp only
      omega
    · intro hge
      omega
  · have hlen2 : 2 ≤ s.terminal_dispatch_tasks.length := by
      rcases hn : s.terminal_dispatch_tasks with _ | ⟨e, _ | ⟨e2, tl⟩⟩
      · rw [hn] at hev
        simp [evictIndex] at hev
      · rw [hn] at hev
        rw [evictIndex_singleton] at hev
        exact absurd hev (by simp)
      · simp
    obtain ⟨i', hi', hlt', hmin'⟩ := evictIndex_min hlen2
    have hii : i = i' := (Option.some.inj (hi'.symm.trans hev)).symm
    subst hii
    constructor
    · have h1 := length_alistInsert
        (s.terminal_dispatch_tasks.eraseIdx i) st.task_profile.task_id st
      have h2 : (s.terminal_dispatch_tasks.eraseIdx i).length =
          s.terminal_dispatch_tasks.length - 1 := by
        rw [List.length_eraseIdx]
        simp [hlt']
      simp only
      omega
    · intro _
      exact ⟨i, hev, hlt', hmin', rfl⟩

/-- Witness for C4 at the concrete capacity-2 state: terminating "A" keeps
the bound and evicts a minimal-time entry. -/
theorem c4_witness :
    c4res.terminal_dispatch_tasks.length ≤
      c4state.terminated_tasks_max_size ∧
    (∃ i, evictIndex c4state.terminal_dispatch_tasks = some i ∧
      i < c4state.terminal_dispatch_tasks.length ∧
      (∀ e ∈ c4state.terminal_dispatch_tasks,
        timeAt c4state.terminal_dispatch_tasks i ≤ submissionTime e) ∧
      c4res.terminal_dispatch_tasks =
        alistInsert (c4state.terminal_dispatch_tasks.eraseIdx i)
          c4stA.task_profile.task_id c4stA) :=
  ⟨(c4_terminal_bound_and_min_eviction c4state c4stA c4res (by decide)
      (by decide)).1,
   (c4_terminal_bound_and_min_eviction c4state c4stA c4res (by decide)
      (by decide)).2 (by decide)⟩

/-- C5: the self-generated-task sweep — invoked on the live active table by
the winning branch of the auction completion handler and by the Queued
branch of cancel — terminates, with state Canceled, exactly the active
entries attributed to the swept fleet whose ids are not user-submitted;
those entries land in the terminal table and every other entry (other
fleets, or user-submitted) is left in place, with the user-submitted set
unchanged. -/
theorem c5_self_generated_sweep (s : DispatcherState) (fleet : String)
    (hcap : s.terminal_dispatch_tasks.length +
      s.active_dispatch_tasks.length ≤ s.terminated_tasks_max_size)
    (hkeys : ∀ e ∈ s.active_dispatch_tasks, e.2.task_profile.task_id = e.1) :
    ∃ s', sweepLoop fleet s.active_dispatch_tasks s = some s' ∧
      s'.active_dispatch_tasks = s.active_dispatch_tasks.filter
        (fun a => decide (a.1 ∉
          (sweptEntries fleet s.user_submitted_tasks
            s.active_dispatch_tasks).map Prod.fst)) ∧
      s'.user_submitted_tasks = s.user_submitted_tasks ∧
      ((s.active_dispatch_tasks.map Prod.fst).Nodup →
        ∀ e ∈ s.active_dispatch_tasks, fleet = e.2.fleet_name →
          e.1 ∉ s.user_submitted_tasks →
          alistFind? s'.terminal_dispatch_tasks e.1 =
            some ({ e.2 with state := TaskState.canceled })) := by
  obtain ⟨s', hrun, huser, _, _, _, hactive, _, _, hswept⟩ :=
    sweepLoop_spec fleet s.active_dispatch_tasks s hcap hkeys
  refine ⟨s', hrun, hactive, huser, ?_⟩
  intro hnodup e he hf hu
  apply hswept hnodup
  unfold sweptEntries
  rw [List.mem_filter]
  exact ⟨he, by simp [hf, hu]⟩

/-- Witness for C5: in the concrete state, sweeping fleetA cancels the
self-generated "ChargeBattery7" and leaves the user task and the other
fleet's task alone. -/
theorem c5_witness :
    ∃ s', sweepLoop "fleetA" c5state.active_dispatch_tasks c5state = some s' ∧
      s'.active_dispatch_tasks = c5state.active_dispatch_tasks.filter
        (fun a => decide (a.1 ∉
          (sweptEntries "fleetA" c5state.user_submitted_tasks
            c5state.active_dispatch_tasks).map Prod.fst)) ∧
      s'.user_submitted_tasks = c5state.user_submitted_tasks ∧
      ((c5state.active_dispatch_tasks.map Prod.fst).Nodup →
        ∀ e ∈ c5state.active_dispatch_tasks, "fleetA" = e.2.fleet_name →
          e.1 ∉ c5state.user_submitted_tasks →
          alistFind? s'.terminal_dispatch_tasks e.1 =
            some ({ e.2 with state := TaskState.canceled })) :=
  c5_self_generated_sweep c5state "fleetA" (by decide) (by decide)

/-- C8: a successful submission mints exactly the id
`type_name ++ Nat.repr counter` from the counter's current value and
increments the counter by one, so the counter strictly increases across
successful submissions; moreover any two successful submissions made at
different counter readings mint different ids, so all ids minted in a
process run are distinct. -/
theorem c8_minted_ids (s : DispatcherState) (now : Int) (d : TaskDescription)
    (name : String) (h : task_type_name d.task_type = some name) :
    (submit_task s now d).returned_id =
      some (name ++ Nat.repr s.task_counter) ∧
    (submit_task s now d).state.task_counter = s.task_counter + 1 ∧
    (∀ (s2 : DispatcherState) (now2 : Int) (d2 : TaskDescription)
        (name2 : String), task_type_name d2.task_type = some name2 →
      s.task_counter ≠ s2.task_counter →
      (submit_task s now d).returned_id ≠
        (submit_task s2 now2 d2).returned_id) := by
  refine ⟨?_, ?_, ?_⟩
  · simp [submit_task, h]
  · simp [submit_task, h]
  · intro s2 now2 d2 name2 h2 hc
    simp only [submit_task, h, h2, Option.some.injEq, ne_eq]
    exact minted_id_ne (task_type_name_mem h) (task_type_name_mem h2) hc

/-- Witness for C8: the first Loop submission mints "Loop0", bumps the
counter to 1, and differs from the Station id minted at counter 1. -/
theorem c8_witness :
    (submit_task emptyDispatcher 0 ⟨1⟩).returned_id =
      some ("Loop" ++ Nat.repr 0) ∧
    (submit_task emptyDispatcher 0 ⟨1⟩).state.task_counter = 0 + 1 ∧
    (submit_task emptyDispatcher 0 ⟨1⟩).returned_id ≠
      (submit_task (submit_task emptyDispatcher 0 ⟨1⟩).state 5 ⟨0⟩).returned_id := by
  obtain ⟨h1, h2, h3⟩ := c8_minted_ids emptyDispatcher 0 ⟨1⟩ "Loop" rfl
  exact ⟨h1, h2,
    h3 (submit_task emptyDispatcher 0 ⟨1⟩).state 5 ⟨0⟩ "Station" rfl (by decide)⟩

end RmfTaskRos2
